import Mathlib

/-!
Shallow embedding of `Museum_Main.py` (SIC_Team5_Monitoring), the
sensor-monitoring node: sensor polling loops, the shared event queue,
the dispatcher / event handler, audio level estimation, and the
shutdown path.  Events in the source are ad hoc dicts with keys
`type`, `db`, `temp`, `capture`; they are modelled as a structure with
optional fields.  Sound levels and temperatures (Python floats) are
modelled as rationals where the claims only compare them, and as reals
where the source computes logarithms.
-/

namespace Museum

/-- Configuration constant `SOUND_DB_THRESHOLD = 70.0` from the source. -/
def SOUND_DB_THRESHOLD : ℚ := 70

/-- Configuration constant `TEMP_THRESHOLD = 60.0` from the source. -/
def TEMP_THRESHOLD : ℚ := 60

/-- Configuration constant `CAMERA_ENABLED = True` from the source. -/
def CAMERA_ENABLED : Bool := true

/-- An event dict pushed onto `event_queue`.  The source builds dicts such
as `{"type": "noise", "db": db, "capture": True}`,
`{"type": "motion", "capture": True}`, `{"type": "smoke", "capture": False}`
and `{"type": "high_temp", "temp": t}`; each optional field models the
presence or absence of the corresponding key. -/
structure RawEvent where
  type : String
  db : Option ℚ := none
  temp : Option ℚ := none
  capture : Option Bool := none
deriving DecidableEq, Repr

/-- A Python `queue.Queue`: `maxsize` (0 means infinite, as in
`queue.Queue()` with no argument) and the stored items, front first. -/
structure PyQueue (α : Type) where
  maxsize : ℕ
  items : List α
deriving DecidableEq, Repr

/-- Model of `queue.Queue.put`: appends at the back when the queue is not full;
a `put` on a full queue blocks the producer, modelled as `none`.
A queue with `maxsize = 0` is never full. -/
def PyQueue.put {α : Type} (q : PyQueue α) (x : α) : Option (PyQueue α) :=
  if 0 < q.maxsize ∧ q.maxsize ≤ q.items.length then none
  else some ⟨q.maxsize, q.items ++ [x]⟩

/-- Model of `queue.Queue.get`: removes and returns the front item; a `get` on an
empty queue blocks the consumer, modelled as `none`. -/
def PyQueue.get {α : Type} (q : PyQueue α) : Option (α × PyQueue α) :=
  match q.items with
  | [] => none
  | x :: rest => some (x, ⟨q.maxsize, rest⟩)

/-- Definition `event_queue = queue.Queue()` from the source: no `maxsize` argument,
hence `maxsize = 0` (infinite), initially empty. -/
def event_queue : PyQueue RawEvent := ⟨0, []⟩

/-- Fold `put` over a list of events (a producer pushing them in order);
`none` if some `put` blocks. -/
def putAll {α : Type} (q : PyQueue α) : List α → Option (PyQueue α)
  | [] => some q
  | x :: xs =>
    match q.put x with
    | none => none
    | some q1 => putAll q1 xs

/-- One interleaved queue operation: a producer `put` or the consumer
dispatcher calling `get`. -/
inductive QOp (α : Type) where
  | put (x : α) : QOp α
  | get : QOp α
deriving DecidableEq, Repr

/-- The events pushed by a trace, in arrival order. -/
def putsOf {α : Type} : List (QOp α) → List α
  | [] => []
  | QOp.put x :: ops => x :: putsOf ops
  | QOp.get :: ops => putsOf ops

/-- Run a trace of interleaved operations against a queue, accumulating
the sequence of items the consumer received, in the order `get`
returned them.  A blocked `put` stops the producer (the trace cannot
continue past it); a blocked `get` simply waits (the consumer retries,
so the remaining operations proceed). -/
def runOps {α : Type} (q : PyQueue α) (out : List α) :
    List (QOp α) → PyQueue α × List α
  | [] => (q, out)
  | QOp.put x :: ops =>
    match q.put x with
    | none => (q, out)
    | some q1 => runOps q1 out ops
  | QOp.get :: ops =>
    match q.get with
    | none => runOps q out ops
    | some (x, q1) => runOps q1 (out ++ [x]) ops

theorem runOps_arrival_order {α : Type} (ops : List (QOp α)) :
    ∀ (items out : List α),
      (runOps ⟨0, items⟩ out ops).2 ++ (runOps ⟨0, items⟩ out ops).1.items =
        out ++ items ++ putsOf ops := by
  induction ops with
  | nil => intro items out; simp [runOps, putsOf]
  | cons op ops ih =>
    intro items out
    cases op with
    | put x =>
      simp only [runOps, PyQueue.put, putsOf]
      norm_num
      rw [ih (items ++ [x]) out]
      simp
    | get =>
      cases items with
      | nil =>
        simp only [runOps, PyQueue.get, putsOf]
        rw [ih [] out]
      | cons a l =>
        simp only [runOps, PyQueue.get, putsOf]
        rw [ih l (out ++ [a])]
        simp

/-- The event `{"type": "motion", "capture": True}` pushed by `loop_ir`. -/
def motion_event : RawEvent := { type := "motion", capture := some true }

/-- The event `{"type": "smoke", "capture": False}` pushed by `loop_smoke`. -/
def smoke_event : RawEvent := { type := "smoke", capture := some false }

/-- The event `{"type": "high_temp", "temp": t}` pushed by `loop_dht`
(note: no `"capture"` key). -/
def high_temp_event (t : ℚ) : RawEvent := { type := "high_temp", temp := some t }

/-- Model of `loop_ir` from the source: one cycle per 0.2 s poll.  State `last` is
the previous reading (initially `0`); an event is pushed iff
`state and not last` (rising edge).  The result lists, cycle by cycle,
the event pushed in that cycle, if any. -/
def loop_ir_run : Bool → List Bool → List (Option RawEvent)
  | _, [] => []
  | last, s :: rest =>
    (if s && !last then some motion_event else none) :: loop_ir_run s rest

/-- One `loop_smoke` cycle: push `smoke_event` iff the reading is active
(`if state == 1` in the source). -/
def loop_smoke_cycle (s : Bool) : Option RawEvent :=
  if s then some smoke_event else none

/-- Model of `loop_smoke` from the source: one cycle per 3 s poll, no state carried
between cycles; an event is pushed iff the digital reading is `1`.
(The unconditional `publish_telemetry` of `{"smoke": int(state)}` each
cycle carries no event and is outside the claims.) -/
def loop_smoke_run (readings : List Bool) : List (Option RawEvent) :=
  readings.map loop_smoke_cycle

/-- One `loop_dht` cycle.  A reading is `none` when the sensor raised
`RuntimeError` or returned `None` for temperature or humidity; then the
cycle does nothing.  On a valid reading `(t, h)` the cycle publishes the
climate telemetry `{"temperature_c": t, "humidity": h}` and pushes
`high_temp_event t` iff `t > TEMP_THRESHOLD`. -/
def loop_dht_cycle (reading : Option (ℚ × ℚ)) : Option (ℚ × ℚ) × Option RawEvent :=
  match reading with
  | none => (none, none)
  | some (t, h) =>
    (some (t, h), if TEMP_THRESHOLD < t then some (high_temp_event t) else none)

/-- Model of `loop_dht` from the source: one cycle per 10 s poll, stateless across
cycles.  For each cycle, the pair of the climate telemetry published (if
any) and the event pushed (if any). -/
def loop_dht_run (readings : List (Option (ℚ × ℚ))) :
    List (Option (ℚ × ℚ) × Option RawEvent) :=
  readings.map loop_dht_cycle

/-- Model of `loop_sound` from the source, abstracted over the threshold `th`
(`SOUND_DB_THRESHOLD`) and the cooldown length `cool` counted in poll
cycles (`time.sleep(2)` after a firing, during which no blocks are
sampled).  `cd` is the number of remaining cooldown cycles.  Each cycle
consumes the next sound-level estimate `r`; the output records, cycle by
cycle, whether a noise event fired (`db >= threshold` and not inside the
post-fire sleep).  The `"capture"` flag of the fired event (presence of
a co-located IR signal) plays no role in the firing decision. -/
def loop_sound_flags (th : ℚ) (cool : ℕ) : ℕ → List ℚ → List Bool
  | _, [] => []
  | cd + 1, _ :: rs => false :: loop_sound_flags th cool cd rs
  | 0, r :: rs =>
    if th ≤ r then true :: loop_sound_flags th cool cool rs
    else false :: loop_sound_flags th cool 0 rs

/-- One transition of the cooldown counter of `loop_sound`: a pending
cooldown counts down; otherwise a reading at or above the threshold
fires and restarts the cooldown. -/
def soundStep (th : ℚ) (cool cd : ℕ) (r : ℚ) : ℕ :=
  match cd with
  | cd1 + 1 => cd1
  | 0 => if th ≤ r then cool else 0

/-- The cooldown counter of `loop_sound_flags` before cycle `i`, starting
from initial counter `cd0`: an index-based view of the same state
machine, used to state temporal properties of the firing pattern. -/
def soundCdFrom (th : ℚ) (cool cd0 : ℕ) (rs : List ℚ) : ℕ → ℕ
  | 0 => cd0
  | i + 1 => soundStep th cool (soundCdFrom th cool cd0 rs i) (rs.getD i 0)

/-- Whether a noise event fires at cycle `i`, in the index-based view
(initial counter `cd0`). -/
def soundFireFrom (th : ℚ) (cool : ℕ) (cd0 : ℕ) (rs : List ℚ) (i : ℕ) : Bool :=
  decide (soundCdFrom th cool cd0 rs i = 0) && decide (th ≤ rs.getD i 0)

/-- Whether a noise event fires at cycle `i` in the actual program
(`loop_sound` starts with no pending cooldown). -/
def soundFire (th : ℚ) (cool : ℕ) (rs : List ℚ) (i : ℕ) : Bool :=
  soundFireFrom th cool 0 rs i

/-- Computation `np.mean(np.square(samples))`: the mean square of an
audio sample block. -/
noncomputable def meanSq (samples : List ℝ) : ℝ :=
  ((samples.map fun x => x ^ 2).sum) / samples.length

/-- Computation `np.sqrt` of the mean square: the RMS of the block. -/
noncomputable def rms (samples : List ℝ) : ℝ := Real.sqrt (meanSq samples)

/-- Model of `rms_db` from the source: the floor `-100.0` when the RMS is
non-positive, otherwise `20 * np.log10(rms)`. -/
noncomputable def rms_db (samples : List ℝ) : ℝ :=
  if rms samples ≤ 0 then -100 else 20 * Real.logb 10 (rms samples)

/-- Model of `sample_audio_block` from the source, abstracted over the
acquisition outcome: `some samples` when `sd.rec` and `sd.wait` returned
a block, `none` when they raised.  On success it returns
`rms_db(samples) + 90` (the fixed calibration offset); on an audio error
it prints and returns the neutral value `0`. -/
noncomputable def sample_audio_block (acq : Option (List ℝ)) : ℝ :=
  match acq with
  | some samples => rms_db samples + 90
  | none => 0

/-- The telemetry dict built by `handle_event`: `{"event": ev, "ts": ...}`
plus the optional keys `"image_saved"`, `"image_has_face"` and
`"image_b64"`.  The wall-clock timestamp string is not modelled. -/
structure Telemetry where
  event : RawEvent
  image_saved : Option String := none
  image_has_face : Option Bool := none
  image_b64 : Option String := none
deriving DecidableEq, Repr

/-- Outcome of a Python call: a returned value, or a raised exception. -/
inductive PyResult (α : Type) where
  | ok (val : α) : PyResult α
  | exc (msg : String) : PyResult α
deriving DecidableEq, Repr

/-- Model of `handle_event` from the source.  `cap` is the behaviour of
`capture_image` for each event (on success the saved filename and the
face flag; a device error, non-zero camera exit or corrupt image is a
raised exception), and `enc img` is the base64 payload of the file
`img`.  When `CAMERA_ENABLED` holds and the `"capture"` key — read with
default `False` by `ev.get("capture", False)` — is true, the capture
runs; there is no try/except anywhere in `handle_event`, so an
exception there propagates and `publish_telemetry` is never reached for
the event.  Otherwise the telemetry is published (`publish_telemetry`
catches its own errors).  The actuator calls (`led_set`, `beep`) and
the fixed sleeps are not part of the published value. -/
def handle_event (cap : RawEvent → PyResult (String × Bool))
    (enc : String → String) (ev : RawEvent) : PyResult Telemetry :=
  if CAMERA_ENABLED && ev.capture.getD false then
    match cap ev with
    | PyResult.exc m => PyResult.exc m
    | PyResult.ok (img, has_face) =>
      PyResult.ok { event := ev, image_saved := some img,
                    image_has_face := some has_face,
                    image_b64 := if has_face then some (enc img) else none }
  else PyResult.ok { event := ev }

/-- Model of `dispatcher` from the source, run over the sequence of
events it will receive from the queue:
`while True: ev = event_queue.get(); handle_event(ev); task_done()`
with no exception handler, so the first exception that escapes
`handle_event` kills the dispatcher thread.  The result is the list of
telemetry dicts published, and `some msg` when the thread died — the
remaining events are then left unconsumed. -/
def dispatcher (cap : RawEvent → PyResult (String × Bool))
    (enc : String → String) : List RawEvent → List Telemetry × Option String
  | [] => ([], none)
  | ev :: rest =>
    match handle_event cap enc ev with
    | PyResult.exc m => ([], some m)
    | PyResult.ok t =>
      match dispatcher cap enc rest with
      | (ts, died) => (t :: ts, died)

/-- Actuator and MQTT-client state manipulated by the main program. -/
structure NodeState where
  led_green : Bool
  led_yellow : Bool
  led_red : Bool
  buzzer : Bool
  mqtt_loop_running : Bool
deriving DecidableEq, Repr

/-- Model of `led_set` from the source: writes all three LED outputs
(arguments default to `False` in the source, so `led_set(green=True)`
is `led_set true false false`). -/
def led_set (green yellow red : Bool) (s : NodeState) : NodeState :=
  { s with led_green := green, led_yellow := yellow, led_red := red }

/-- State after GPIO and MQTT setup: LEDs and buzzer off, the MQTT
network loop started by `client.loop_start()`. -/
def startup_state : NodeState :=
  { led_green := false, led_yellow := false, led_red := false,
    buzzer := false, mqtt_loop_running := true }

/-- Start of the main block: `led_set(green=True)` before the wait loop. -/
def main_start (s : NodeState) : NodeState := led_set true false false s

/-- Model of the `except KeyboardInterrupt` shutdown path from the
source: it runs `client.loop_stop()` and prints `"Stopped."`.  It
performs no `led_set`, no `buzzer.off()`, and signals nothing to the
sensor and dispatcher threads (they are daemon threads, killed only by
process exit). -/
def shutdown_handler (s : NodeState) : NodeState :=
  { s with mqtt_loop_running := false }

theorem putAll_maxsize_zero {α : Type} (evs : List α) :
    ∀ items : List α, putAll ⟨0, items⟩ evs = some ⟨0, items ++ evs⟩ := by
  induction evs with
  | nil => intro items; simp [putAll]
  | cons x xs ih =>
    intro items
    simp only [putAll, PyQueue.put]
    norm_num
    rw [ih (items ++ [x])]
    simp

/-- C1.  The claim says the event queue is bounded by a fixed capacity
with an explicit overflow policy.  In the source `event_queue` is
`queue.Queue()` with `maxsize = 0`, i.e. infinite: no natural number
bounds the number of stored events over all push sequences. -/
theorem event_queue_bounded_counterexample :
    ¬ ∃ C : ℕ, ∀ (evs : List RawEvent) (q1 : PyQueue RawEvent),
        putAll event_queue evs = some q1 → q1.items.length ≤ C := by
  rintro ⟨C, hC⟩
  have h := hC (List.replicate (C + 1) smoke_event)
    ⟨0, List.replicate (C + 1) smoke_event⟩ ?_
  · simp at h
  · have := putAll_maxsize_zero (List.replicate (C + 1) smoke_event)
      (α := RawEvent) []
    simpa [event_queue] using this

/-- C1 (amended).  The event queue is `queue.Queue()` with `maxsize = 0`,
i.e. unbounded: every push succeeds (never blocks, never drops), and
after any sequence of pushes the queue stores exactly all pushed events
— there is no overflow policy, the queue grows without bound. -/
theorem event_queue_unbounded :
    ∀ evs : List RawEvent, putAll event_queue evs = some ⟨0, evs⟩ := by
  intro evs
  have := putAll_maxsize_zero evs (α := RawEvent) []
  simpa [event_queue] using this

/-- C9.  The claim says that after the shutdown path the actuators are in
the safe/off state.  The `except KeyboardInterrupt` handler only stops
the MQTT loop; the green LED switched on at startup stays on, so the
final state is not the all-off state. -/
theorem shutdown_leaves_green_led_on :
    (shutdown_handler (main_start startup_state)).led_green = true ∧
    shutdown_handler (main_start startup_state) ≠
      { led_green := false, led_yellow := false, led_red := false,
        buzzer := false, mqtt_loop_running := false } := by
  constructor
  · rfl
  · decide

/-- C9 (amended).  The shutdown path only stops the MQTT client loop: it
leaves every LED and the buzzer exactly as they were (in the actual run,
green on), and contains no cancellation signal for the producer loops or
the dispatcher — those daemon threads die with the process, not by
observing shutdown within a polling interval. -/
theorem shutdown_handler_spec :
    (∀ s : NodeState,
      shutdown_handler s =
        { led_green := s.led_green, led_yellow := s.led_yellow,
          led_red := s.led_red, buzzer := s.buzzer,
          mqtt_loop_running := false }) ∧
    shutdown_handler (main_start startup_state) =
      { led_green := true, led_yellow := false, led_red := false,
        buzzer := false, mqtt_loop_running := false } := by
  constructor
  · intro s; rfl
  · decide

/-- C5.  Smoke is level-triggered: in every poll cycle the event is
pushed exactly when the digital reading is active — notably on
consecutive active cycles — and the output of a cycle is a function of
that cycle reading alone (no previous-reading or debounce state). -/
theorem loop_smoke_level_triggered :
    (∀ (rs : List Bool) (i : ℕ),
        (loop_smoke_run rs).getD i none =
          if rs.getD i false then some smoke_event else none) ∧
    loop_smoke_run [true, true, false, true] =
      [some smoke_event, some smoke_event, none, some smoke_event] := by
  constructor
  · intro rs
    induction rs with
    | nil => intro i; simp [loop_smoke_run]
    | cons s rest ih =>
      intro i
      cases i with
      | zero => simp [loop_smoke_run, loop_smoke_cycle]
      | succ j => simpa [loop_smoke_run, loop_smoke_cycle] using ih j
  · decide

/-- C7.  Climate loop: every successful read emits one ClimateSample,
a HighTemperature event is pushed additionally exactly when the
temperature strictly exceeds `TEMP_THRESHOLD`; for the readings
`[55, 65, 58]` against threshold 60 there are three samples and exactly
one high-temperature event, at the second reading; a failed read
produces nothing at all (silently skipped, no error event), and every
cycle is a function of its own reading only. -/
theorem loop_dht_spec :
    ((loop_dht_run [some (55, 40), some (65, 40), some (58, 40)]).map Prod.fst =
        [some (55, 40), some (65, 40), some (58, 40)] ∧
      (loop_dht_run [some (55, 40), some (65, 40), some (58, 40)]).map Prod.snd =
        [none, some (high_temp_event 65), none]) ∧
    (∀ t h : ℚ, (loop_dht_cycle (some (t, h))).1 = some (t, h)) ∧
    (∀ t h : ℚ,
      ((loop_dht_cycle (some (t, h))).2 = some (high_temp_event t) ↔
        TEMP_THRESHOLD < t)) ∧
    loop_dht_cycle none = (none, none) ∧
    (∀ (rs : List (Option (ℚ × ℚ))) (i : ℕ),
      (loop_dht_run rs).getD i (none, none) = loop_dht_cycle (rs.getD i none)) := by
  refine ⟨⟨by decide, by decide⟩, ?_, ?_, rfl, ?_⟩
  · intro t h; simp [loop_dht_cycle]
  · intro t h
    simp only [loop_dht_cycle]
    split
    · simp [*]
    · simp only [high_temp_event]
      constructor
      · intro hc; exact absurd hc (by simp)
      · intro ht; exact absurd ht (by assumption)
  · intro rs
    induction rs with
    | nil => intro i; simp [loop_dht_run, loop_dht_cycle]
    | cons r rest ih =>
      intro i
      cases i with
      | zero => simp [loop_dht_run]
      | succ j => simpa [loop_dht_run] using ih j

/-- C4.  Motion is edge-triggered: in every poll cycle, `loop_ir` pushes
an event exactly when the current reading is true and the previous one
(the initial `last` for cycle 0) was false; steady true or false input
and falling edges push nothing, and the pushed event requests capture. -/
theorem loop_ir_rising_edge :
    (∀ (last : Bool) (rs : List Bool) (i : ℕ),
        (loop_ir_run last rs).getD i none =
          if rs.getD i false && !(if i = 0 then last else rs.getD (i - 1) false)
          then some motion_event else none) ∧
    motion_event.capture = some true := by
  constructor
  · intro last rs
    induction rs generalizing last with
    | nil => intro i; simp [loop_ir_run]
    | cons s rest ih =>
      intro i
      cases i with
      | zero => simp [loop_ir_run]
      | succ j =>
        cases j with
        | zero => simpa [loop_ir_run] using ih s 0
        | succ k => simpa [loop_ir_run] using ih s (k + 1)
  · rfl

/-- C10.  An event whose `"capture"` key is absent — as is every
high-temperature event pushed by `loop_dht` — is treated as
`capture = False` by `ev.get("capture", False)`: the published telemetry
carries no image fields and the result does not depend on the camera
behaviour at all. -/
theorem handle_event_no_capture_field
    (cap cap2 : RawEvent → PyResult (String × Bool))
    (enc enc2 : String → String) (ev : RawEvent) (t : ℚ)
    (h : ev.capture = none) :
    handle_event cap enc ev =
      PyResult.ok { event := ev, image_saved := none,
                    image_has_face := none, image_b64 := none } ∧
    handle_event cap enc ev = handle_event cap2 enc2 ev ∧
    (high_temp_event t).capture = none := by
  have hc : ev.capture.getD false = false := by rw [h]; rfl
  refine ⟨?_, ?_, rfl⟩ <;> simp [handle_event, CAMERA_ENABLED, hc]

theorem handle_event_no_capture_field_witness :
    (high_temp_event 65).capture = none ∧
    handle_event (fun _ => PyResult.exc "camera device error") (fun s => s)
        (high_temp_event 65) =
      PyResult.ok { event := high_temp_event 65, image_saved := none,
                    image_has_face := none, image_b64 := none } :=
  ⟨rfl,
    (handle_event_no_capture_field (fun _ => PyResult.exc "camera device error")
      (fun _ => PyResult.ok ("f.jpg", true)) (fun s => s) (fun s => s)
      (high_temp_event 65) 65 rfl).1⟩

/-- C2.  The claim says a failed capture still yields exactly one
published event without image fields and the dispatcher keeps consuming.
In the source neither `handle_event` nor `dispatcher` has a try/except:
with a capture that raises, the dispatcher run over
`[motion_event, smoke_event]` publishes nothing — not one event — the
exception escapes, and the second queued event is never consumed. -/
theorem handle_event_capture_failure_counterexample :
    dispatcher (fun _ => PyResult.exc "camera device error") (fun s => s)
        [motion_event, smoke_event] = ([], some "camera device error") ∧
    (dispatcher (fun _ => PyResult.exc "camera device error") (fun s => s)
        [motion_event, smoke_event]).1.length ≠ 1 := by
  constructor
  · rfl
  · decide

/-- C2 (amended).  If the capture step raises on an event that requests
capture, the exception propagates out of `handle_event` (no telemetry is
published for that event), and the dispatcher — which has no exception
handler — dies there: it publishes nothing for the remaining queued
events either, so one bad event does permanently stop the pipeline. -/
theorem dispatcher_capture_failure_crashes
    (cap : RawEvent → PyResult (String × Bool)) (enc : String → String)
    (ev : RawEvent) (rest : List RawEvent) (m : String)
    (hcap : cap ev = PyResult.exc m) (hreq : ev.capture.getD false = true) :
    handle_event cap enc ev = PyResult.exc m ∧
    dispatcher cap enc (ev :: rest) = ([], some m) := by
  have h1 : handle_event cap enc ev = PyResult.exc m := by
    simp [handle_event, CAMERA_ENABLED, hreq, hcap]
  exact ⟨h1, by simp [dispatcher, h1]⟩

theorem dispatcher_capture_failure_crashes_witness :
    handle_event (fun _ => PyResult.exc "camera device error") (fun s => s)
      motion_event = PyResult.exc "camera device error" ∧
    dispatcher (fun _ => PyResult.exc "camera device error") (fun s => s)
      [motion_event, smoke_event] = ([], some "camera device error") :=
  dispatcher_capture_failure_crashes
    (fun _ => PyResult.exc "camera device error") (fun s => s)
    motion_event [smoke_event] "camera device error" rfl rfl

/-- C8.  Relative to the interleaved trace of queue operations, the
consumer receives events exactly in arrival order: the received
sequence followed by the still-queued items is the full push sequence,
so the i-th received event is the i-th pushed event — per-producer FIFO
order is preserved and no reordering by sensor priority is possible. -/
theorem event_queue_fifo_order :
    (∀ ops : List (QOp RawEvent),
      (runOps event_queue [] ops).2 ++ (runOps event_queue [] ops).1.items =
        putsOf ops) ∧
    (∀ (ops : List (QOp RawEvent)) (i : ℕ),
      i < (runOps event_queue [] ops).2.length →
      (runOps event_queue [] ops).2.get? i = (putsOf ops).get? i) := by
  have key : ∀ ops : List (QOp RawEvent),
      (runOps event_queue [] ops).2 ++ (runOps event_queue [] ops).1.items =
        putsOf ops := by
    intro ops
    have := runOps_arrival_order ops [] []
    simpa [event_queue] using this
  refine ⟨key, ?_⟩
  intro ops i hi
  rw [← key ops]
  simp [List.getElem?_append_left hi]

theorem event_queue_fifo_order_witness :
    (runOps event_queue []
      [QOp.put motion_event, QOp.put smoke_event, QOp.get, QOp.get]).2.get? 1 =
    (putsOf
      [QOp.put motion_event, QOp.put smoke_event, QOp.get, QOp.get]).get? 1 :=
  event_queue_fifo_order.2
    [QOp.put motion_event, QOp.put smoke_event, QOp.get, QOp.get] 1 (by decide)

/-- C6.  Sound-level estimation: whenever the RMS of a block is
non-positive, `rms_db` returns the floor `-100`, which is strictly below
the noise threshold 70; a failed acquisition makes
`sample_audio_block` return the neutral value `0`, also below the
threshold, so polling continues; and on a positive RMS the block
estimate is `20 * log10(rms)` plus the calibration offset `90`. -/
theorem rms_db_floor_spec :
    (∀ samples : List ℝ, rms samples ≤ 0 →
      rms_db samples = -100 ∧ rms_db samples < (SOUND_DB_THRESHOLD : ℝ)) ∧
    (sample_audio_block none = 0 ∧ (0 : ℝ) < (SOUND_DB_THRESHOLD : ℝ)) ∧
    (∀ samples : List ℝ, ¬ rms samples ≤ 0 →
      sample_audio_block (some samples) =
        20 * Real.logb 10 (rms samples) + 90) := by
  refine ⟨?_, ⟨rfl, ?_⟩, ?_⟩
  · intro samples h
    have hdb : rms_db samples = -100 := by simp [rms_db, h]
    refine ⟨hdb, ?_⟩
    rw [hdb]
    norm_num [SOUND_DB_THRESHOLD]
  · norm_num [SOUND_DB_THRESHOLD]
  · intro samples h
    simp [sample_audio_block, rms_db, h]

theorem rms_db_floor_spec_witness :
    rms_db [(0 : ℝ)] = -100 ∧
    sample_audio_block (some [(1 : ℝ)]) =
      20 * Real.logb 10 (rms [(1 : ℝ)]) + 90 := by
  have h0 : rms [(0 : ℝ)] ≤ 0 := by
    simp [rms, meanSq]
  have h1 : ¬ rms [(1 : ℝ)] ≤ 0 := by
    have : rms [(1 : ℝ)] = 1 := by
      simp [rms, meanSq]
    rw [this]; norm_num
  exact ⟨(rms_db_floor_spec.1 [(0 : ℝ)] h0).1, rms_db_floor_spec.2.2 [(1 : ℝ)] h1⟩

theorem soundCdFrom_shift (th : ℚ) (cool cd0 : ℕ) (r : ℚ) (rs : List ℚ) :
    ∀ j : ℕ, soundCdFrom th cool cd0 (r :: rs) (j + 1) =
      soundCdFrom th cool (soundStep th cool cd0 r) rs j := by
  intro j
  induction j with
  | zero => simp [soundCdFrom]
  | succ k ih =>
    calc soundCdFrom th cool cd0 (r :: rs) (k + 2)
        = soundStep th cool (soundCdFrom th cool cd0 (r :: rs) (k + 1))
            ((r :: rs).getD (k + 1) 0) := rfl
      _ = soundStep th cool (soundCdFrom th cool (soundStep th cool cd0 r) rs k)
            (rs.getD k 0) := by rw [ih]; rfl
      _ = soundCdFrom th cool (soundStep th cool cd0 r) rs (k + 1) := rfl

theorem soundFireFrom_shift (th : ℚ) (cool cd0 : ℕ) (r : ℚ) (rs : List ℚ)
    (j : ℕ) : soundFireFrom th cool cd0 (r :: rs) (j + 1) =
      soundFireFrom th cool (soundStep th cool cd0 r) rs j := by
  simp only [soundFireFrom, soundCdFrom_shift]
  rfl

theorem loop_sound_agrees (th : ℚ) (cool : ℕ) :
    ∀ (rs : List ℚ) (cd0 i : ℕ), i < rs.length →
      (loop_sound_flags th cool cd0 rs).getD i false =
        soundFireFrom th cool cd0 rs i := by
  intro rs
  induction rs with
  | nil => intro cd0 i hi; simp at hi
  | cons r rest ih =>
    intro cd0 i hi
    cases i with
    | zero =>
      cases cd0 with
      | zero =>
        simp only [loop_sound_flags, soundFireFrom, soundCdFrom]
        split
        · simp [*]
        · simp [*]
      | succ k =>
        simp [loop_sound_flags, soundFireFrom, soundCdFrom]
    | succ j =>
      have hj : j < rest.length := by simpa using hi
      rw [soundFireFrom_shift]
      cases cd0 with
      | zero =>
        simp only [loop_sound_flags, soundStep]
        split
        · simpa using ih cool j hj
        · simpa using ih 0 j hj
      | succ k =>
        simp only [loop_sound_flags, soundStep]
        simpa using ih k j hj

theorem soundFire_eq_true (th : ℚ) (cool : ℕ) (rs : List ℚ) (i : ℕ) :
    soundFire th cool rs i = true ↔
      soundCdFrom th cool 0 rs i = 0 ∧ th ≤ rs.getD i 0 := by
  simp [soundFire, soundFireFrom]

theorem soundInv (th : ℚ) (cool : ℕ) (rs : List ℚ) :
    ∀ i : ℕ,
      (soundCdFrom th cool 0 rs i = 0 →
        ∀ j, j < i → soundFire th cool rs j = true → j + cool < i) ∧
      (∀ cd : ℕ, soundCdFrom th cool 0 rs i = cd + 1 →
        (∃ j, j < i ∧ soundFire th cool rs j = true ∧ j + cool = i + cd) ∧
        (∀ j, j < i → soundFire th cool rs j = true → j + cool ≤ i + cd)) := by
  intro i
  induction i with
  | zero =>
    refine ⟨fun _ j hj => absurd hj (Nat.not_lt_zero j), fun cd hcd => ?_⟩
    simp [soundCdFrom] at hcd
  | succ i ih =>
    obtain ⟨ih0, ihs⟩ := ih
    cases hc : soundCdFrom th cool 0 rs i with
    | zero =>
      by_cases hth : th ≤ rs.getD i 0
      · have hfire : soundFire th cool rs i = true :=
          (soundFire_eq_true th cool rs i).mpr ⟨hc, hth⟩
        have hnew : soundCdFrom th cool 0 rs (i + 1) = cool := by
          show soundStep th cool (soundCdFrom th cool 0 rs i) (rs.getD i 0) = cool
          rw [hc]
          show (if th ≤ rs.getD i 0 then cool else 0) = cool
          rw [if_pos hth]
        constructor
        · intro h0 j hj hfj
          have hcool : cool = 0 := by rw [hnew] at h0; exact h0
          rcases Nat.lt_succ_iff_lt_or_eq.mp hj with hj1 | hj1
          · have := ih0 hc j hj1 hfj; omega
          · omega
        · intro cd hcd
          rw [hnew] at hcd
          subst hcd
          constructor
          · exact ⟨i, Nat.lt_succ_self i, hfire, by omega⟩
          · intro j hj hfj
            rcases Nat.lt_succ_iff_lt_or_eq.mp hj with hj1 | hj1
            · have := ih0 hc j hj1 hfj; omega
            · omega
      · have hnew : soundCdFrom th cool 0 rs (i + 1) = 0 := by
          show soundStep th cool (soundCdFrom th cool 0 rs i) (rs.getD i 0) = 0
          rw [hc]
          show (if th ≤ rs.getD i 0 then cool else 0) = 0
          rw [if_neg hth]
        have hnofire : soundFire th cool rs i = false := by
          show (decide (soundCdFrom th cool 0 rs i = 0) &&
            decide (th ≤ rs.getD i 0)) = false
          rw [decide_eq_false hth, Bool.and_false]
        constructor
        · intro _ j hj hfj
          rcases Nat.lt_succ_iff_lt_or_eq.mp hj with hj1 | hj1
          · have := ih0 hc j hj1 hfj; omega
          · subst hj1; rw [hnofire] at hfj; cases hfj
        · intro cd hcd
          rw [hnew] at hcd
          cases hcd
    | succ k =>
      have hnofire : soundFire th cool rs i = false := by
        show (decide (soundCdFrom th cool 0 rs i = 0) &&
          decide (th ≤ rs.getD i 0)) = false
        have h1 : decide (soundCdFrom th cool 0 rs i = 0) = false := by
          rw [hc]; simp
        rw [h1, Bool.false_and]
      have hnew : soundCdFrom th cool 0 rs (i + 1) = k := by
        show soundStep th cool (soundCdFrom th cool 0 rs i) (rs.getD i 0) = k
        rw [hc]
        rfl
      obtain ⟨⟨j0, hj0, hfj0, hj0e⟩, hbnd⟩ := ihs k hc
      cases k with
      | zero =>
        constructor
        · intro _ j hj hfj
          rcases Nat.lt_succ_iff_lt_or_eq.mp hj with hj1 | hj1
          · have := hbnd j hj1 hfj; omega
          · subst hj1; rw [hnofire] at hfj; cases hfj
        · intro cd hcd
          rw [hnew] at hcd
          cases hcd
      | succ k2 =>
        constructor
        · intro h0
          rw [hnew] at h0
          cases h0
        · intro cd hcd
          rw [hnew] at hcd
          have hk : cd = k2 := by omega
          subst hk
          constructor
          · exact ⟨j0, by omega, hfj0, by omega⟩
          · intro j hj hfj
            rcases Nat.lt_succ_iff_lt_or_eq.mp hj with hj1 | hj1
            · have := hbnd j hj1 hfj; omega
            · subst hj1; rw [hnofire] at hfj; cases hfj

/-- C3.  Noise firing: on the decibel series `[50, 75, 80, 40, 76]` with
threshold 70 and a cooldown covering 2 cycles the loop fires exactly at
cycles 1 and 4 (not at 2, although 80 is above threshold); in general
the loop view agrees with the index view `soundFireFrom`, every firing
cycle reads a level at or above the threshold, two firings are always
separated by more than the cooldown, and an above-threshold cycle that
does not fire lies within the cooldown window of an earlier firing —
i.e. a noise event fires exactly when the level is at or above the
threshold and the cooldown from the previous firing has elapsed. -/
theorem loop_sound_cooldown_spec :
    loop_sound_flags 70 2 0 [50, 75, 80, 40, 76] =
      [false, true, false, false, true] ∧
    (∀ (th : ℚ) (cool cd0 : ℕ) (rs : List ℚ) (i : ℕ), i < rs.length →
      (loop_sound_flags th cool cd0 rs).getD i false =
        soundFireFrom th cool cd0 rs i) ∧
    (∀ (th : ℚ) (cool : ℕ) (rs : List ℚ) (i : ℕ),
      soundFire th cool rs i = true → th ≤ rs.getD i 0) ∧
    (∀ (th : ℚ) (cool : ℕ) (rs : List ℚ) (i j : ℕ),
      soundFire th cool rs i = true → soundFire th cool rs j = true →
      i < j → i + cool < j) ∧
    (∀ (th : ℚ) (cool : ℕ) (rs : List ℚ) (i : ℕ),
      th ≤ rs.getD i 0 → soundFire th cool rs i = false →
      ∃ j, j < i ∧ soundFire th cool rs j = true ∧ i ≤ j + cool) := by
  refine ⟨by decide, ?_, ?_, ?_, ?_⟩
  · intro th cool cd0 rs i hi
    exact loop_sound_agrees th cool rs cd0 i hi
  · intro th cool rs i hi
    exact ((soundFire_eq_true th cool rs i).mp hi).2
  · intro th cool rs i j hi hj hij
    have hcd : soundCdFrom th cool 0 rs j = 0 :=
      ((soundFire_eq_true th cool rs j).mp hj).1
    exact (soundInv th cool rs j).1 hcd i hij hi
  · intro th cool rs i hth hfi
    cases hc : soundCdFrom th cool 0 rs i with
    | zero =>
      have : soundFire th cool rs i = true :=
        (soundFire_eq_true th cool rs i).mpr ⟨hc, hth⟩
      rw [hfi] at this
      cases this
    | succ cd =>
      obtain ⟨⟨j, hj, hfj, hje⟩, _⟩ := (soundInv th cool rs i).2 cd hc
      exact ⟨j, hj, hfj, by omega⟩

theorem loop_sound_cooldown_spec_witness :
    ∃ j, j < 2 ∧ soundFire 70 2 [50, 75, 80, 40, 76] j = true ∧ 2 ≤ j + 2 :=
  loop_sound_cooldown_spec.2.2.2.2 70 2 [50, 75, 80, 40, 76] 2
    (by decide) (by decide)

end Museum
